import Mathlib

/-!
# Verification of the Mandelbrot render pipeline (`src/render.cu`)

A shallow embedding of the single source file `src/render.cu` of the
repository: the coordinate-mapping utility `clamp`, the four-band heat
palette `heat_lut`, the escape-time loop of the device kernel `mykernel`,
the per-pixel color computation, the kernel's write behaviour on the pitched
device buffer, and the host-side orchestrator `render` with its fail-fast
error handling.

Real (`float`) arithmetic of the source is embedded as exact rational
arithmetic over `ℚ`; C `int` arithmetic (in particular the truncating
integer division in `255 * i / n`) is embedded as `ℕ` arithmetic with
truncating `Nat` division, and the value-preserving `int → float`
conversion as the cast `ℕ → ℚ`.  The C++ cast `static_cast<std::uint8_t>`
from a non-negative in-range `float` truncates toward zero; it is embedded
as `Int.toNat ∘ Int.floor` (all call sites feed it values in `[0, 255]`).
-/

namespace Render

/-- The pixel color record `rgba8_t` of the source: four 8-bit channels,
embedded as natural numbers (every constructed value is `< 256`). -/
structure Rgba8 where
  r : ℕ
  g : ℕ
  b : ℕ
  a : ℕ
deriving DecidableEq, Repr

/-- The truncating C++ cast `static_cast<std::uint8_t>` applied to a
non-negative in-range `float` value: truncation toward zero, i.e. the
floor, of the exact value. -/
def toByte (q : ℚ) : ℕ := (Int.floor q).toNat

/-- Source function `clamp`:
`percentage = (a - a1) / (a1 - a2); return percentage * (min - max) + min`. -/
def clamp (a a1 a2 lo hi : ℚ) : ℚ :=
  (a - a1) / (a1 - a2) * (lo - hi) + lo

/-- First branch of `heat_lut` (`x < 1/4`):
`rgba8_t{0, static_cast<uint8_t>(x / x0 * 255), 255, 255}` with `x0 = 1/4`. -/
def band1 (x : ℚ) : Rgba8 := ⟨0, toByte (x / (1/4) * 255), 255, 255⟩

/-- Second branch of `heat_lut` (`1/4 ≤ x < 2/4`):
`rgba8_t{0, 255, static_cast<uint8_t>((x1 - x) / x0 * 255), 255}`. -/
def band2 (x : ℚ) : Rgba8 := ⟨0, 255, toByte ((2/4 - x) / (1/4) * 255), 255⟩

/-- Third branch of `heat_lut` (`2/4 ≤ x < 3/4`):
`rgba8_t{static_cast<uint8_t>((x - x1) / x0 * 255), 255, 0, 255}`. -/
def band3 (x : ℚ) : Rgba8 := ⟨toByte ((x - 2/4) / (1/4) * 255), 255, 0, 255⟩

/-- Fourth branch of `heat_lut` (`x ≥ 3/4`):
`rgba8_t{0, static_cast<uint8_t>((1.f - x) / x0 * 255), 0, 255}`. -/
def band4 (x : ℚ) : Rgba8 := ⟨0, toByte ((1 - x) / (1/4) * 255), 0, 255⟩

/-- Source function `heat_lut`: dispatch on the band cut points
`x0 = 1/4`, `x1 = 2/4`, `x2 = 3/4`, each branch as factored out above. -/
def heat_lut (x : ℚ) : Rgba8 :=
  if x < 1/4 then band1 x
  else if x < 2/4 then band2 x
  else if x < 3/4 then band3 x
  else band4 x

/-- The escape-time `while` loop of `mykernel`:
`while (mx*mx + my*my < 2*2 && i < n) { mxtemp = mx*mx - my*my + mx0;
my = 2*mx*my + my0; mx = mxtemp; ++i; }`, returning the final `i`. -/
def mandelGo (mx0 my0 : ℚ) (n : ℕ) (mx my : ℚ) (i : ℕ) : ℕ :=
  if h : mx * mx + my * my < 2 * 2 ∧ i < n then
    mandelGo mx0 my0 n (mx * mx - my * my + mx0) (2 * mx * my + my0) (i + 1)
  else i
termination_by n - i
decreasing_by omega

/-- The escape-time evaluator of `mykernel`: the loop above entered with
`n = 100`, `mx = 0`, `my = 0`, `i = 0`. -/
def escapeTime (mx0 my0 : ℚ) : ℕ := mandelGo mx0 my0 100 0 0 0

/-- One step of the Mandelbrot recurrence
`(mx, my) ↦ (mx*mx - my*my + mx0, 2*mx*my + my0)`. -/
def step (mx0 my0 : ℚ) (p : ℚ × ℚ) : ℚ × ℚ :=
  (p.1 * p.1 - p.2 * p.2 + mx0, 2 * p.1 * p.2 + my0)

/-- The orbit of the recurrence started at `(0, 0)`. -/
def orbit (mx0 my0 : ℚ) (k : ℕ) : ℚ × ℚ := (step mx0 my0)^[k] (0, 0)

/-- The loop guard's escape condition on a state: `mx*mx + my*my ≥ 4`. -/
def escaped (p : ℚ × ℚ) : Prop := 2 * 2 ≤ p.1 * p.1 + p.2 * p.2

instance (p : ℚ × ℚ) : Decidable (escaped p) := by
  unfold escaped; infer_instance

/-- The x-coordinate mapping of `mykernel`:
`mx0 = clamp(x, 0, width, -2.5, 1)`. -/
def mapX (x width : ℕ) : ℚ := clamp x 0 width (-5/2) 1

/-- The y-coordinate mapping of `mykernel`:
`my0 = clamp(y, 0, height, -1, 1)`. -/
def mapY (y height : ℕ) : ℚ := clamp y 0 height (-1) 1

/-- The normalization of the iteration count in `mykernel`:
`float v = 255 * i / n;` is C `int` arithmetic (truncating division by
`n = 100`) converted to `float`, then `v_clamp = clamp(v, 0.0, 255.0,
0.0, 1.0)`. -/
def kernelScalar (i : ℕ) : ℚ := clamp ((255 * i / 100 : ℕ) : ℚ) 0 255 0 1

/-- The full per-pixel color computed by `mykernel` for pixel `(x, y)` of a
`width × height` image: map, iterate, normalize, colorize. -/
def kernelColor (width height x y : ℕ) : Rgba8 :=
  heat_lut (kernelScalar (escapeTime (mapX x width) (mapY y height)))

/-- The write a single `mykernel` thread performs on the pitched device
buffer: out-of-bounds threads (`x >= width || y >= height`) return without
writing (`none`); an in-bounds thread stores one 4-byte pixel through
`lineptr = (uchar4*)(buffer + y * pitch); lineptr[x] = color`, i.e. at byte
offset `y * pitch + 4 * x`. -/
def threadWrite (width height pitch x y : ℕ) : Option (ℕ × Rgba8) :=
  if width ≤ x ∨ height ≤ y then none
  else some (y * pitch + 4 * x, kernelColor width height x y)

/-- The grid width computed by `render`: `std::ceil((float)width / 32)`,
embedded as the exact ceiling of the rational division. -/
def gridDimX (width : ℕ) : ℤ := ⌈(width : ℚ) / 32⌉

/-- The grid height computed by `render`: `std::ceil((float)height / 32)`. -/
def gridDimY (height : ℕ) : ℤ := ⌈(height : ℚ) / 32⌉

/-- The launch geometry of `render`: `dim3 dimBlock(32, 32)` and
`dim3 dimGrid(w, h)` with `w`, `h` the ceiling divisions above. -/
def launchGeometry (width height : ℕ) : (ℕ × ℕ) × (ℤ × ℤ) :=
  ((32, 32), (gridDimX width, gridDimY height))

/-- Byte `k` of a stored pixel, in the `{color.r, color.g, color.b,
color.a}` order of the `uchar4` store. -/
def channelByte (c : Rgba8) (k : ℕ) : ℕ :=
  match k with
  | 0 => c.r
  | 1 => c.g
  | 2 => c.b
  | _ => c.a

/-- The host buffer after the kernel fill and the `cudaMemcpy2D` copy-back:
for each row `y < height` the first `width * 4` bytes at host offset
`y * stride` receive that row's pixel bytes (the device pitch cancels:
byte `y * pitch + 4 * x + c` of the device buffer is channel `c` of pixel
`(x, y)`); all other host bytes keep their prior contents.  A host address
is decoded as row `addr / stride` and in-row offset `addr % stride`, which
is exact under the documented invariant `stride ≥ width * 4`. -/
def renderHostBuffer (hostBuffer : ℕ → ℕ) (width height stride : ℕ) : ℕ → ℕ :=
  fun addr =>
    if addr / stride < height ∧ addr % stride < 4 * width then
      channelByte (kernelColor width height (addr % stride / 4) (addr / stride))
        (addr % stride % 4)
    else hostBuffer addr

/-- Outcome of a `render` call: normal return with the filled host buffer,
or process termination through `_abortError` (which logs the message and
calls `std::exit(1)`). -/
inductive RenderResult where
  | ok (hostBuffer : ℕ → ℕ)
  | abort (msg : String)

/-- The host orchestrator `render`: allocate the pitched device buffer,
launch the kernel, copy back, free — checking for an accelerator error
after each step and aborting with the corresponding message.  Each `*Err`
flag stands for the error status the corresponding CUDA call reports
(`cudaMallocPitch`, `cudaPeekAtLastError`, `cudaMemcpy2D`, `cudaFree`).
The `nIterations` parameter mirrors the C signature. -/
def render (hostBuffer : ℕ → ℕ) (width height stride : ℕ) (nIterations : ℤ)
    (allocErr launchErr copyErr freeErr : Bool) : RenderResult :=
  if allocErr then RenderResult.abort "Fail buffer allocation"
  else if launchErr then RenderResult.abort "Computation Error"
  else if copyErr then RenderResult.abort "Unable to copy buffer back to memory"
  else if freeErr then RenderResult.abort "Unable to free memory"
  else RenderResult.ok (renderHostBuffer hostBuffer width height stride)

/-- The loop of `mykernel` entered at iteration `i` with the state the
recurrence reaches after `i` steps from `(0, 0)`. -/
def mandelFrom (mx0 my0 : ℚ) (n i : ℕ) : ℕ :=
  mandelGo mx0 my0 n (orbit mx0 my0 i).1 (orbit mx0 my0 i).2 i

theorem escapeTime_eq_mandelFrom (mx0 my0 : ℚ) :
    escapeTime mx0 my0 = mandelFrom mx0 my0 100 0 := rfl

theorem orbit_succ (mx0 my0 : ℚ) (k : ℕ) :
    orbit mx0 my0 (k + 1) = step mx0 my0 (orbit mx0 my0 k) := by
  unfold orbit
  exact Function.iterate_succ_apply' (step mx0 my0) k (0, 0)

/-- All correctness properties of the escape-time loop in one lemma: the
result lies between the entry index and the cap, a result short of the cap
is an escaped state, and no state strictly before the result escaped. -/
theorem mandelFrom_spec (mx0 my0 : ℚ) (n : ℕ) :
    ∀ fuel i, n - i = fuel → i ≤ n →
      i ≤ mandelFrom mx0 my0 n i ∧
      mandelFrom mx0 my0 n i ≤ n ∧
      (mandelFrom mx0 my0 n i < n →
        escaped (orbit mx0 my0 (mandelFrom mx0 my0 n i))) ∧
      (∀ j, i ≤ j → j < mandelFrom mx0 my0 n i →
        ¬ escaped (orbit mx0 my0 j)) := by
  intro fuel
  induction fuel with
  | zero =>
    intro i hfuel hin
    have hi : i = n := by omega
    subst hi
    have hstop : mandelFrom mx0 my0 i i = i := by
      unfold mandelFrom
      rw [mandelGo]
      simp
    rw [hstop]
    refine ⟨le_refl i, le_refl i, ?_, ?_⟩
    · intro hlt
      exact absurd hlt (lt_irrefl i)
    · intro j hij hjlt
      omega
  | succ fuel ih =>
    intro i hfuel hin
    have hilt : i < n := by omega
    by_cases hesc : escaped (orbit mx0 my0 i)
    · have hstop : mandelFrom mx0 my0 n i = i := by
        unfold mandelFrom
        rw [mandelGo]
        rw [dif_neg]
        intro hcon
        exact absurd hesc (not_le.mpr hcon.1)
      rw [hstop]
      refine ⟨le_refl i, le_of_lt hilt, fun _ => hesc, ?_⟩
      intro j hij hjlt
      omega
    · have hlt4 : (orbit mx0 my0 i).1 * (orbit mx0 my0 i).1 +
          (orbit mx0 my0 i).2 * (orbit mx0 my0 i).2 < 2 * 2 :=
        not_le.mp hesc
      have hrec : mandelFrom mx0 my0 n i = mandelFrom mx0 my0 n (i + 1) := by
        unfold mandelFrom
        rw [mandelGo]
        rw [dif_pos ⟨hlt4, hilt⟩]
        rw [orbit_succ]
        rfl
      obtain ⟨h1, h2, h3, h4⟩ := ih (i + 1) (by omega) (by omega)
      rw [hrec]
      refine ⟨le_trans (Nat.le_succ i) h1, h2, h3, ?_⟩
      intro j hij hjlt
      rcases Nat.eq_or_lt_of_le hij with heq | hlt
      · rw [← heq]
        exact hesc
      · exact h4 j hlt hjlt

/-- Specialization used by several theorems: bounds and escape
characterization of `escapeTime`. -/
theorem escapeTime_spec (mx0 my0 : ℚ) :
    escapeTime mx0 my0 ≤ 100 ∧
    (escapeTime mx0 my0 < 100 →
      escaped (orbit mx0 my0 (escapeTime mx0 my0))) ∧
    (∀ j, j < escapeTime mx0 my0 → ¬ escaped (orbit mx0 my0 j)) := by
  rw [escapeTime_eq_mandelFrom]
  obtain ⟨_, h2, h3, h4⟩ := mandelFrom_spec mx0 my0 100 100 0 rfl (by omega)
  exact ⟨h2, h3, fun j hj => h4 j (Nat.zero_le j) hj⟩

theorem orbit_zero_fixed (k : ℕ) : orbit 0 0 k = (0, 0) := by
  induction k with
  | zero => rfl
  | succ k ih =>
    rw [orbit_succ, ih]
    simp [step]

/-- The origin of the complex plane never escapes, so the loop runs to the
cap. -/
theorem escapeTime_origin : escapeTime 0 0 = 100 := by
  obtain ⟨h1, h2, _⟩ := escapeTime_spec 0 0
  by_contra hne
  have hlt : escapeTime 0 0 < 100 := lt_of_le_of_ne h1 hne
  have := h2 hlt
  rw [orbit_zero_fixed] at this
  norm_num [escaped] at this

/-- The inner normalization `clamp(v, 0.0, 255.0, 0.0, 1.0)` is division by
255. -/
theorem clamp_norm (v : ℚ) : clamp v 0 255 0 1 = v / 255 := by
  unfold clamp
  ring

theorem kernelScalar_mem (i : ℕ) (hi : i ≤ 100) :
    0 ≤ kernelScalar i ∧ kernelScalar i ≤ 1 := by
  have hk : 255 * i / 100 ≤ 255 := by
    have : 255 * i / 100 ≤ 255 * 100 / 100 :=
      Nat.div_le_div_right (Nat.mul_le_mul_left 255 hi)
    omega
  rw [kernelScalar, clamp_norm]
  constructor
  · positivity
  · rw [div_le_one (by norm_num)]
    exact_mod_cast hk

theorem toByte_zero : toByte 0 = 0 := by simp [toByte]

theorem toByte_full : toByte 255 = 255 := by simp [toByte]

/-- Ceiling division: `std::ceil` of the exact quotient by 32 agrees with the natural-number
ceiling division `(w + 31) / 32`. -/
theorem ceil_div32 (w : ℕ) : ⌈(w : ℚ) / 32⌉ = (((w + 31) / 32 : ℕ) : ℤ) := by
  have hdm := Nat.div_add_mod (w + 31) 32
  have hm31 : (w + 31) % 32 ≤ 31 := by omega
  have hQ : 32 * (((w + 31) / 32 : ℕ) : ℚ) + (((w + 31) % 32 : ℕ) : ℚ) = (w : ℚ) + 31 := by
    exact_mod_cast congrArg (Nat.cast : ℕ → ℚ) hdm
  have hmQ : (((w + 31) % 32 : ℕ) : ℚ) ≤ 31 := by exact_mod_cast hm31
  have hmQ0 : (0 : ℚ) ≤ (((w + 31) % 32 : ℕ) : ℚ) := by positivity
  rw [Int.ceil_eq_iff]
  constructor
  · rw [lt_div_iff₀ (by norm_num : (0 : ℚ) < 32), Int.cast_natCast]
    linarith
  · rw [div_le_iff₀ (by norm_num : (0 : ℚ) < 32), Int.cast_natCast]
    linarith

/-- C1: for every pixel inside the image, the escape-time evaluator —
started at `(mx, my) = (0, 0)` and iterating `mx' = mx*mx - my*my + mx0`,
`my' = 2*mx*my + my0` for the pixel's mapped point — returns a count in
`[0, 100]` (so the loop runs at most 100 iterations), stops exactly when
the state escapes (`mx*mx + my*my ≥ 4`) or the cap `n = 100` is reached,
and no earlier state had escaped. -/
theorem C1_escape_time_in_range (w h x y : ℕ) (_hx : x < w) (_hy : y < h) :
    escapeTime (mapX x w) (mapY y h) ≤ 100 ∧
    (escapeTime (mapX x w) (mapY y h) < 100 →
      escaped (orbit (mapX x w) (mapY y h) (escapeTime (mapX x w) (mapY y h)))) ∧
    (∀ j, j < escapeTime (mapX x w) (mapY y h) →
      ¬ escaped (orbit (mapX x w) (mapY y h) j)) :=
  escapeTime_spec (mapX x w) (mapY y h)

theorem C1_escape_time_in_range_witness :
    (0 : ℕ) < 1 ∧
    (escapeTime (mapX 0 1) (mapY 0 1) ≤ 100 ∧
      (escapeTime (mapX 0 1) (mapY 0 1) < 100 →
        escaped (orbit (mapX 0 1) (mapY 0 1) (escapeTime (mapX 0 1) (mapY 0 1)))) ∧
      (∀ j, j < escapeTime (mapX 0 1) (mapY 0 1) →
        ¬ escaped (orbit (mapX 0 1) (mapY 0 1) j))) :=
  ⟨Nat.zero_lt_one, C1_escape_time_in_range 1 1 0 0 Nat.zero_lt_one Nat.zero_lt_one⟩

/-- C2: for `a1 ≠ a2` the `clamp` utility returns exactly
`((a - a1) / (a1 - a2)) * (lo - hi) + lo`, is affine in `a`, maps `a = a1`
to exactly `lo` and `a = a2` to exactly `hi` (no saturation: the same
formula applies to every input `a`). -/
theorem C2_clamp_affine_map (a a1 a2 lo hi : ℚ) (hne : a1 ≠ a2) :
    clamp a a1 a2 lo hi = (a - a1) / (a1 - a2) * (lo - hi) + lo ∧
    (∃ c d : ℚ, ∀ b : ℚ, clamp b a1 a2 lo hi = c * b + d) ∧
    clamp a1 a1 a2 lo hi = lo ∧
    clamp a2 a1 a2 lo hi = hi := by
  have hsub : a1 - a2 ≠ 0 := sub_ne_zero.mpr hne
  refine ⟨rfl, ⟨(lo - hi) / (a1 - a2),
      (0 - a1) / (a1 - a2) * (lo - hi) + lo, ?_⟩, ?_, ?_⟩
  · intro b
    unfold clamp
    field_simp
    ring
  · unfold clamp
    simp
  · unfold clamp
    field_simp
    ring

theorem C2_clamp_affine_map_witness :
    (0 : ℚ) ≠ 10 ∧
    (clamp 3 0 10 5 7 = (3 - 0) / (0 - 10) * (5 - 7) + 5 ∧
      (∃ c d : ℚ, ∀ b : ℚ, clamp b 0 10 5 7 = c * b + d) ∧
      clamp 0 0 10 5 7 = 5 ∧
      clamp 10 0 10 5 7 = 7) :=
  ⟨by norm_num, C2_clamp_affine_map 3 0 10 5 7 (by norm_num)⟩

/-- C3: the palette takes the values `(0,0,255,255)` at `x = 0`,
`(0,255,255,255)` at `x = 1/4`, `(0,255,0,255)` at `x = 1/2` and
`(0,255,0,255)` at `x = 3/4`; the band formulas agree at the joins
`1/4` and `1/2`, while at `3/4` band 3 ends at `(255,255,0,255)` and
band 4 starts at `(0,255,0,255)` — the single jump among the joins —
and the alpha channel is 255 in every band. -/
theorem C3_heat_lut_band_joins :
    heat_lut 0 = ⟨0, 0, 255, 255⟩ ∧
    heat_lut (1/4) = ⟨0, 255, 255, 255⟩ ∧
    heat_lut (2/4) = ⟨0, 255, 0, 255⟩ ∧
    heat_lut (3/4) = ⟨0, 255, 0, 255⟩ ∧
    band1 (1/4) = band2 (1/4) ∧
    band2 (2/4) = band3 (2/4) ∧
    band3 (3/4) = ⟨255, 255, 0, 255⟩ ∧
    band4 (3/4) = ⟨0, 255, 0, 255⟩ ∧
    band3 (3/4) ≠ band4 (3/4) ∧
    (∀ x : ℚ, (heat_lut x).a = 255) := by
  have hb3 : band3 (3/4) = ⟨255, 255, 0, 255⟩ := by
    rw [band3]
    norm_num [toByte_full]
  have hb4 : band4 (3/4) = ⟨0, 255, 0, 255⟩ := by
    rw [band4]
    norm_num [toByte_full]
  refine ⟨?_, ?_, ?_, ?_, ?_, ?_, hb3, hb4, ?_, ?_⟩
  · rw [heat_lut, if_pos (by norm_num), band1]
    norm_num [toByte_zero]
  · rw [heat_lut, if_neg (by norm_num), if_pos (by norm_num), band2]
    norm_num [toByte_full]
  · rw [heat_lut, if_neg (by norm_num), if_neg (by norm_num),
      if_pos (by norm_num), band3]
    norm_num [toByte_zero]
  · rw [heat_lut, if_neg (by norm_num), if_neg (by norm_num),
      if_neg (by norm_num)]
    exact hb4
  · rw [band1, band2]
    norm_num [toByte_full]
  · rw [band2, band3]
    norm_num [toByte_zero]
  · rw [hb3, hb4]
    decide
  · intro x
    rw [heat_lut]
    split_ifs <;> rfl

/-- C4: the image data `render` produces does not depend on the
`n_iterations` argument — two calls identical in host buffer, width,
height and stride but with different `n_iterations` yield identical
results (the parameter is never consulted; the evaluator's cap is the
hardcoded `n = 100`). -/
theorem C4_render_ignores_n_iterations (hostBuffer : ℕ → ℕ)
    (w h stride : ℕ) (n1 n2 : ℤ) (e1 e2 e3 e4 : Bool) :
    render hostBuffer w h stride n1 e1 e2 e3 e4 =
      render hostBuffer w h stride n2 e1 e2 e3 e4 := rfl

/-- C5 counterexample: at iteration count `i = 50` the scalar passed to
`heat_lut` is `127/255` (the `int` division `255 * 50 / 100` truncates to
`127`), not `50/100 = 1/2` as the claim states. -/
theorem C5_kernel_scalar_not_linear : kernelScalar 50 ≠ 50 / 100 := by
  rw [kernelScalar, clamp]
  norm_num

/-- C5 (amended): the scalar passed to `heat_lut` for iteration count `i`
is `i` rescaled to `[0, 255]` with truncating integer division and then
mapped back to `[0, 1]`, i.e. it equals `⌊255 * i / 100⌋ / 255` — which
differs from `i / 100` whenever `100` does not divide `255 * i`. -/
theorem C5_kernel_scalar_floor (i : ℕ) :
    kernelScalar i = (⌊255 * (i : ℚ) / 100⌋₊ : ℚ) / 255 := by
  have harg : 255 * (i : ℚ) / 100 = ((255 * i : ℕ) : ℚ) / ((100 : ℕ) : ℚ) := by
    push_cast
    ring
  rw [kernelScalar, clamp_norm, harg, Nat.floor_div_eq_div]

/-- C6: for every in-bounds pixel the value fed to `heat_lut` lies in
`[0, 1]`, so the palette's precondition (its debug assertion
`assert(0 <= x && x <= 1)`) always holds on kernel execution paths. -/
theorem C6_kernel_scalar_unit_interval (w h x y : ℕ)
    (_hx : x < w) (_hy : y < h) :
    0 ≤ kernelScalar (escapeTime (mapX x w) (mapY y h)) ∧
    kernelScalar (escapeTime (mapX x w) (mapY y h)) ≤ 1 :=
  kernelScalar_mem _ (escapeTime_spec (mapX x w) (mapY y h)).1

theorem C6_kernel_scalar_unit_interval_witness :
    (0 : ℕ) < 1 ∧
    (0 ≤ kernelScalar (escapeTime (mapX 0 1) (mapY 0 1)) ∧
      kernelScalar (escapeTime (mapX 0 1) (mapY 0 1)) ≤ 1) :=
  ⟨Nat.zero_lt_one,
    C6_kernel_scalar_unit_interval 1 1 0 0 Nat.zero_lt_one Nat.zero_lt_one⟩

/-- C7: for positive width and height, `render` launches a fixed 32×32
thread block and a grid of `ceil(width/32) × ceil(height/32)` blocks,
the ceiling divisions written as `(d + 31) / 32` on naturals. -/
theorem C7_launch_geometry (w h : ℕ) (_hw : 0 < w) (_hh : 0 < h) :
    launchGeometry w h =
      ((32, 32), ((((w + 31) / 32 : ℕ) : ℤ), (((h + 31) / 32 : ℕ) : ℤ))) := by
  unfold launchGeometry gridDimX gridDimY
  rw [ceil_div32, ceil_div32]

theorem C7_launch_geometry_witness :
    (0 : ℕ) < 64 ∧ (0 : ℕ) < 48 ∧
    launchGeometry 64 48 =
      ((32, 32), ((((64 + 31) / 32 : ℕ) : ℤ), (((48 + 31) / 32 : ℕ) : ℤ))) :=
  ⟨by norm_num, by norm_num, C7_launch_geometry 64 48 (by norm_num) (by norm_num)⟩

/-- C8: a kernel thread with `x ≥ width` or `y ≥ height` writes nothing;
an in-bounds thread writes exactly one 4-byte pixel at byte offset
`y * pitch + 4 * x` (row `y`, column `x`); and under the pitch invariant
`pitch ≥ 4 * width` two distinct in-bounds threads write disjoint
offsets. -/
theorem C8_thread_writes (w h p x y x' y' : ℕ) :
    (w ≤ x ∨ h ≤ y → threadWrite w h p x y = none) ∧
    (x < w → y < h →
      threadWrite w h p x y = some (y * p + 4 * x, kernelColor w h x y)) ∧
    (4 * w ≤ p → x < w → x' < w → y < h → y' < h → (x, y) ≠ (x', y') →
      y * p + 4 * x ≠ y' * p + 4 * x') := by
  refine ⟨?_, ?_, ?_⟩
  · intro hout
    rw [threadWrite, if_pos hout]
  · intro hx hy
    rw [threadWrite, if_neg (by push_neg; exact ⟨hx, hy⟩)]
  · intro hp hx hx' hy hy' hne heq
    rcases Nat.lt_trichotomy y y' with hlt | heq' | hgt
    · have h1 : (y + 1) * p ≤ y' * p :=
        Nat.mul_le_mul_right p (Nat.succ_le_of_lt hlt)
      have h2 : y * p + 4 * x < y * p + p :=
        Nat.add_lt_add_left (by omega) (y * p)
      have : y * p + 4 * x < y' * p + 4 * x' := by
        calc y * p + 4 * x < y * p + p := h2
          _ = (y + 1) * p := by ring
          _ ≤ y' * p := h1
          _ ≤ y' * p + 4 * x' := Nat.le_add_right _ _
      exact absurd heq (Nat.ne_of_lt this)
    · subst heq'
      have hxx : x = x' := by
        have := Nat.add_left_cancel heq
        omega
      subst hxx
      exact hne rfl
    · have h1 : (y' + 1) * p ≤ y * p :=
        Nat.mul_le_mul_right p (Nat.succ_le_of_lt hgt)
      have h2 : y' * p + 4 * x' < y' * p + p :=
        Nat.add_lt_add_left (by omega) (y' * p)
      have : y' * p + 4 * x' < y * p + 4 * x := by
        calc y' * p + 4 * x' < y' * p + p := h2
          _ = (y' + 1) * p := by ring
          _ ≤ y * p := h1
          _ ≤ y * p + 4 * x := Nat.le_add_right _ _
      exact absurd heq.symm (Nat.ne_of_lt this)

theorem C8_thread_writes_witness :
    threadWrite 2 2 8 5 0 = none ∧
    threadWrite 2 2 8 1 0 = some (0 * 8 + 4 * 1, kernelColor 2 2 1 0) ∧
    0 * 8 + 4 * 1 ≠ 1 * 8 + 4 * 0 :=
  ⟨(C8_thread_writes 2 2 8 5 0 0 0).1 (Or.inl (by norm_num)),
   (C8_thread_writes 2 2 8 1 0 0 0).2.1 (by norm_num) (by norm_num),
   (C8_thread_writes 2 2 8 1 0 0 1).2.2 (by norm_num) (by norm_num)
     (by norm_num) (by norm_num) (by norm_num) (by decide)⟩

/-- C9: a `render` call either passes all error checks and returns with
the full image written into the host buffer, or aborts (the process
terminates via `_abortError`) with one of the four diagnostic messages;
a normal return implies no step failed and the returned buffer is the
fully rendered one — there is no partial-success return. -/
theorem C9_render_all_or_abort (hostBuffer : ℕ → ℕ) (w h stride : ℕ)
    (nI : ℤ) (e1 e2 e3 e4 : Bool) :
    (render hostBuffer w h stride nI e1 e2 e3 e4 =
        RenderResult.ok (renderHostBuffer hostBuffer w h stride) ∨
      ∃ msg, render hostBuffer w h stride nI e1 e2 e3 e4 =
        RenderResult.abort msg) ∧
    (∀ out, render hostBuffer w h stride nI e1 e2 e3 e4 =
        RenderResult.ok out →
      out = renderHostBuffer hostBuffer w h stride ∧
        e1 = false ∧ e2 = false ∧ e3 = false ∧ e4 = false) := by
  cases e1 <;> cases e2 <;> cases e3 <;> cases e4 <;>
    simp [render]

theorem C9_render_all_or_abort_witness :
    renderHostBuffer (fun _ => 0) 2 2 8 = renderHostBuffer (fun _ => 0) 2 2 8 ∧
    false = false ∧ false = false ∧ false = false ∧ false = false :=
  (C9_render_all_or_abort (fun _ => 0) 2 2 8 0 false false false false).2
    (renderHostBuffer (fun _ => 0) 2 2 8) rfl

/-- C10: a pixel whose escape-time iteration reaches the cap (`i = 100`)
gets normalized value exactly 1, which falls in the fourth band of the
palette, and is written as opaque black `(0, 0, 0, 255)`. -/
theorem C10_cap_pixel_black (w h x y : ℕ) (_hx : x < w) (_hy : y < h)
    (hcap : escapeTime (mapX x w) (mapY y h) = 100) :
    kernelScalar 100 = 1 ∧ heat_lut 1 = band4 1 ∧
    kernelColor w h x y = ⟨0, 0, 0, 255⟩ := by
  have hs : kernelScalar 100 = 1 := by
    rw [kernelScalar, clamp]
    norm_num
  have hl : heat_lut 1 = band4 1 := by
    rw [heat_lut, if_neg (by norm_num), if_neg (by norm_num),
      if_neg (by norm_num)]
  refine ⟨hs, hl, ?_⟩
  rw [kernelColor, hcap, hs, hl, band4]
  norm_num [toByte_zero]

theorem C10_cap_pixel_black_witness :
    (5 : ℕ) < 7 ∧ (1 : ℕ) < 2 ∧
    escapeTime (mapX 5 7) (mapY 1 2) = 100 ∧
    (kernelScalar 100 = 1 ∧ heat_lut 1 = band4 1 ∧
      kernelColor 7 2 5 1 = ⟨0, 0, 0, 255⟩) := by
  have h1 : mapX 5 7 = 0 := by norm_num [mapX, clamp]
  have h2 : mapY 1 2 = 0 := by norm_num [mapY, clamp]
  have hcap : escapeTime (mapX 5 7) (mapY 1 2) = 100 := by
    rw [h1, h2, escapeTime_origin]
  exact ⟨by norm_num, by norm_num, hcap,
    C10_cap_pixel_black 7 2 5 1 (by norm_num) (by norm_num) hcap⟩

end Render
